import Mathlib

/-!
Shallow embedding of the card-game rule engine of `CardsMPFramework`.

The main model follows `src/shared/room.ts` (classes `Game`, `Hand`, the
`Card` type and the enums), which is the engine cited by most claims.
A second model, in namespace `NetView`, follows the per-recipient
serialization of `src/shared/game.ts` (`Game.serialize`) together with
`src/shared/player.ts` (`Player.serialize`).

JavaScript numbers only ever hold small non-negative integers here
(card values, play values, counters, indices), except for the single
`-1` sentinel of `Array.prototype.findIndex`, which is modelled with
`Int` exactly where the source can produce it.
-/

set_option maxHeartbeats 1000000

/-- Suits, from `type Suit = "h" | "d" | "c" | "s"` in room.ts. -/
inductive Suit where
  | h | d | c | s
deriving DecidableEq, Repr

/-- Ranks, from `type Rank` in room.ts ("a", "2", "3".."9", "t", "j", "q", "k").
Digit ranks are prefixed with `n` since Lean identifiers cannot start with a digit. -/
inductive Rank where
  | a | n2 | n3 | n4 | n5 | n6 | n7 | n8 | n9 | t | j | q | k
deriving DecidableEq, Repr

/-- Joker colors (room.ts inlines the literal union `"RED" | "BLACK"`). -/
inductive JokerColor where
  | RED | BLACK
deriving DecidableEq, Repr

/-- `export type Card` of room.ts: a tagged union of a revealed standard card
and a joker. -/
inductive Card where
  | Revealed (suit : Suit) (rank : Rank)
  | Joker (color : JokerColor)
deriving DecidableEq, Repr

/-- `Hand.getCardValue` of room.ts: jokers are 53/54, ranks map to 3..15
("a" is 14, "2" is 15). -/
def getCardValue : Card → Nat
  | .Joker color => if color = JokerColor.BLACK then 53 else 54
  | .Revealed _ rank =>
    match rank with
    | .n3 => 3
    | .n4 => 4
    | .n5 => 5
    | .n6 => 6
    | .n7 => 7
    | .n8 => 8
    | .n9 => 9
    | .t => 10
    | .j => 11
    | .q => 12
    | .k => 13
    | .a => 14
    | .n2 => 15

/-- `Hand.cardsEqual` of room.ts: jokers compare by color, revealed cards by
suit and rank, mixed kinds are unequal. -/
def cardsEqual (a b : Card) : Bool :=
  match a, b with
  | .Joker ca, .Joker cb => ca = cb
  | .Revealed sa ra, .Revealed sb rb => sa = sb ∧ ra = rb
  | _, _ => false

/-- `cardsEqual` is exactly decidable equality on `Card`. -/
theorem cardsEqual_eq_decide (a b : Card) : cardsEqual a b = decide (a = b) := by
  cases a <;> cases b <;> simp [cardsEqual]

/-- Comparison relation of `Hand.sort()` in room.ts: the JS comparator
`(a, b) => getCardValue(a) - getCardValue(b)` sorts ascending by card value. -/
def cardLE (a b : Card) : Prop := getCardValue a ≤ getCardValue b

instance : DecidableRel cardLE := fun x y => by unfold cardLE; infer_instance

instance : IsTotal Card cardLE := ⟨fun a b => Nat.le_total _ _⟩

instance : IsTrans Card cardLE := ⟨fun _ _ _ => Nat.le_trans⟩

/-- `Hand.sort()` of room.ts. `Array.prototype.sort` with a numeric comparator
is a stable ascending sort; a stable sort's output is uniquely determined by
the comparator, so the stable `List.insertionSort` models it exactly. -/
def sortCards (cards : List Card) : List Card :=
  List.insertionSort cardLE cards

/-- `Hand.remove` of room.ts: for each card, `findIndex` the first occurrence
under `cardsEqual` and `splice` it out; a card that is not found is skipped
silently.  By `cardsEqual_eq_decide` this is `List.erase` of each card in turn. -/
def handRemove (hand : List Card) (cards : List Card) : List Card :=
  cards.foldl (fun h c => h.erase c) hand

/-- `enum GamePhase` of room.ts. -/
inductive GamePhase where
  | BIDDING | PLAYING | FINISHED
deriving DecidableEq, Repr

/-- `enum PlayType` of room.ts. -/
inductive PlayType where
  | SOLO | PAIR | TRIPLE | TRIPLE_WITH_SINGLE | TRIPLE_WITH_PAIR
  | STRAIGHT | PAIR_STRAIGHT | TRIPLE_STRAIGHT
  | AIRPLANE_WITH_SINGLES | AIRPLANE_WITH_PAIRS
  | QUAD_WITH_SINGLES | QUAD_WITH_PAIRS
  | BOMB | ROCKET
deriving DecidableEq, Repr

/-- `interface Play` of room.ts. -/
structure Play where
  cards : List Card
  type : PlayType
  value : Nat
deriving DecidableEq, Repr

/-- A player as used by the room.ts engine: an id and a hand of cards
(the engine reads `player.id` and mutates `player.hand`). -/
structure PlayerS where
  id : String
  hand : List Card
deriving DecidableEq, Repr

/-- `class Game` state fields of room.ts. -/
structure Game where
  deck : List Card := []
  landlordCards : List Card := []
  currentPlayerId : Option String := none
  landlordId : Option String := none
  lastPlay : Option Play := none
  phase : GamePhase := GamePhase.BIDDING
  passCount : Nat := 0
deriving DecidableEq, Repr

/-- Placeholder used for out-of-range list reads.  Every deck read performed
by the engine under the conditions of the theorems below is in range, so the
placeholder never surfaces in a proved statement. -/
def defaultCard : Card := Card.Joker JokerColor.RED

example : sortCards [Card.Revealed .h .a, Card.Revealed .s .n3] =
    [Card.Revealed .s .n3, Card.Revealed .h .a] := by decide

example : handRemove [Card.Revealed .h .n3, Card.Revealed .h .n4]
    [Card.Revealed .h .n5] = [Card.Revealed .h .n3, Card.Revealed .h .n4] := by decide

/-- `card.state === "Joker"` in room.ts. -/
def Card.isJoker : Card → Bool
  | .Joker _ => true
  | .Revealed _ _ => false

/-- `card.state === "Revealed"` in room.ts. -/
def Card.isRevealed : Card → Bool
  | .Revealed _ _ => true
  | .Joker _ => false

/-- The string key used by `Game.countRanks` of room.ts: the rank for a
revealed card, `joker_${color}` for a joker. -/
inductive RankKey where
  | rank (r : Rank)
  | joker (c : JokerColor)
deriving DecidableEq, Repr

/-- Key of one card, as in `Game.countRanks`. -/
def cardKey : Card → RankKey
  | .Revealed _ r => RankKey.rank r
  | .Joker c => RankKey.joker c

/-- `counts[key] = (counts[key] || 0) + 1` on an association list. -/
def bumpKey (key : RankKey) : List (RankKey × Nat) → List (RankKey × Nat)
  | [] => [(key, 1)]
  | (k, n) :: rest =>
    if k = key then (k, n + 1) :: rest else (k, n) :: bumpKey key rest

/-- `Game.countRanks` of room.ts: occurrence counts per rank key, modelled as
an association list in first-occurrence order.  (A JS object additionally
fronts integer-like keys in numeric order, but every use of the counts by
`validatePlay` — number of distinct keys, membership of a count, lookup of the
key counted 3 times — is independent of the enumeration order.) -/
def countRanks (cards : List Card) : List (RankKey × Nat) :=
  cards.foldl (fun acc c => bumpKey (cardKey c) acc) []

/-- JS `c.state === "Revealed" && c.rank === firstCard.rank` from
`Game.isStraight`: false whenever either card is a joker (a joker's `rank`
field is `undefined` in JS). -/
def rankMatches (c firstCard : Card) : Bool :=
  match c, firstCard with
  | .Revealed _ rc, .Revealed _ rf => rc = rf
  | _, _ => false

/-- `Game.isStraight(sorted, groupSize)` of room.ts.
The `for` loop over group indices only ever exits early with `false`, so it
is modelled by `List.all` over `List.range`.  `sorted[i]` reads are modelled
with `getD`; they are in range whenever the surrounding checks pass.
(For `groupSize = 0` JS computes `length % 0 = NaN ≠ 0` and returns false;
the model also returns false on every such input: for an empty list the
group count `0 / 0 = 0` fails the final minimum-group check.) -/
def isStraight (sorted : List Card) (groupSize : Nat) : Bool :=
  if sorted.length % groupSize ≠ 0 then false
  else if sorted.any (fun c => c.isJoker) then false
  else
    let numberGroups := sorted.length / groupSize
    if (List.range numberGroups).all (fun index =>
        let groupCards := (sorted.drop (index * groupSize)).take groupSize
        let firstCard := groupCards.headD defaultCard
        (!groupCards.any (fun c => !c.isRevealed)) &&
        groupCards.all (fun c => c.isRevealed && rankMatches c firstCard) &&
        (index == 0 ||
          (let previousCard := sorted.getD ((index - 1) * groupSize) defaultCard
           let expectedValue := getCardValue previousCard + 1
           let actualValue := getCardValue firstCard
           decide (actualValue = expectedValue) && decide (actualValue < 15))))
    then
      decide (numberGroups ≥ (if groupSize = 1 then 5 else if groupSize = 2 then 3 else 2))
    else false

/-- The card whose value names a triple-with-attachment play in
`Game.validatePlay`: `sorted.find(c => (c.state === "Revealed" &&
c.rank === tripleRank) || c.state === "Joker")`. -/
def tripleValueCard (sorted : List Card) (tripleRank : RankKey) : Card :=
  (sorted.find? (fun c =>
    match c with
    | .Revealed _ r => RankKey.rank r = tripleRank
    | .Joker _ => true)).getD defaultCard

/-- `uniqueRanks.find(r => rankCounts[r] === 3)` of `Game.validatePlay`. -/
def findTripleRank (rankCounts : List (RankKey × Nat)) : RankKey :=
  ((rankCounts.find? (fun kv => kv.2 = 3)).map (fun kv => kv.1)).getD
    (RankKey.rank Rank.n3)

/-- `Game.validatePlay(cards)` of room.ts: classify a submitted card list into
a typed `Play`, or reject.  Branches are in source order; `counts` and
`uniqueRanks` are the values/keys of `countRanks`. -/
def validatePlay (cards : List Card) : Option Play :=
  if cards.length == 0 then none
  else
    let sorted := sortCards cards
    if sorted.length == 2 && (sorted.getD 0 defaultCard).isJoker
        && (sorted.getD 1 defaultCard).isJoker then
      some { cards := cards, type := PlayType.ROCKET, value := 1000 }
    else
      let rankCounts := countRanks sorted
      let counts := rankCounts.map (fun kv => kv.2)
      if sorted.length == 4 && counts.length == 1 && counts.getD 0 0 == 4 then
        some { cards := cards, type := PlayType.BOMB,
               value := 100 + getCardValue (sorted.getD 0 defaultCard) }
      else if sorted.length == 1 then
        some { cards := cards, type := PlayType.SOLO,
               value := getCardValue (sorted.getD 0 defaultCard) }
      else if sorted.length == 2 && counts.length == 1 && counts.getD 0 0 == 2 then
        some { cards := cards, type := PlayType.PAIR,
               value := getCardValue (sorted.getD 0 defaultCard) }
      else if sorted.length == 3 && counts.length == 1 && counts.getD 0 0 == 3 then
        some { cards := cards, type := PlayType.TRIPLE,
               value := getCardValue (sorted.getD 0 defaultCard) }
      else if sorted.length == 4 && counts.length == 2 && counts.contains 3
          && counts.contains 1 then
        some { cards := cards, type := PlayType.TRIPLE_WITH_SINGLE,
               value := getCardValue (tripleValueCard sorted (findTripleRank rankCounts)) }
      else if sorted.length == 5 && counts.length == 2 && counts.contains 3
          && counts.contains 2 then
        some { cards := cards, type := PlayType.TRIPLE_WITH_PAIR,
               value := getCardValue (tripleValueCard sorted (findTripleRank rankCounts)) }
      else if decide (sorted.length ≥ 5) && isStraight sorted 1 then
        some { cards := cards, type := PlayType.STRAIGHT,
               value := getCardValue (sorted.getD 0 defaultCard) }
      else if decide (sorted.length ≥ 6) && sorted.length % 2 == 0 && isStraight sorted 2 then
        some { cards := cards, type := PlayType.PAIR_STRAIGHT,
               value := getCardValue (sorted.getD 0 defaultCard) }
      else if decide (sorted.length ≥ 6) && sorted.length % 3 == 0 && isStraight sorted 3 then
        some { cards := cards, type := PlayType.TRIPLE_STRAIGHT,
               value := getCardValue (sorted.getD 0 defaultCard) }
      else
        none

/-- `Game.canBeat(play, lastPlay)` of room.ts. -/
def canBeat (play lastPlay : Play) : Bool :=
  if play.type = PlayType.ROCKET then true
  else if play.type = PlayType.BOMB then
    if lastPlay.type = PlayType.ROCKET then false
    else if lastPlay.type = PlayType.BOMB then decide (play.value > lastPlay.value)
    else true
  else if play.type ≠ lastPlay.type then false
  else if play.cards.length ≠ lastPlay.cards.length then false
  else decide (play.value > lastPlay.value)

example : validatePlay [Card.Revealed .h .n3] =
    some { cards := [Card.Revealed .h .n3], type := PlayType.SOLO, value := 3 } := by decide

example : validatePlay [Card.Joker .BLACK, Card.Joker .RED] =
    some { cards := [Card.Joker .BLACK, Card.Joker .RED],
           type := PlayType.ROCKET, value := 1000 } := by decide

example : validatePlay [Card.Revealed .h .n3, Card.Revealed .d .n3,
    Card.Revealed .c .n3, Card.Revealed .s .n3] =
    some { cards := [Card.Revealed .h .n3, Card.Revealed .d .n3,
                     Card.Revealed .c .n3, Card.Revealed .s .n3],
           type := PlayType.BOMB, value := 103 } := by decide

example : validatePlay [Card.Revealed .h .n3, Card.Revealed .d .n4,
    Card.Revealed .c .n5, Card.Revealed .s .n6, Card.Revealed .h .n7] =
    some { cards := [Card.Revealed .h .n3, Card.Revealed .d .n4,
                     Card.Revealed .c .n5, Card.Revealed .s .n6, Card.Revealed .h .n7],
           type := PlayType.STRAIGHT, value := 3 } := by decide

example : validatePlay [Card.Revealed .h .a, Card.Revealed .s .n2,
    Card.Revealed .c .n3, Card.Revealed .d .n4, Card.Revealed .h .n5] = none := by decide

/-- The turn-advance code shared verbatim by `Game.playCards` and `Game.pass`
in room.ts:
`players.findIndex(p => p.id === this.currentPlayerId)` (which yields `-1`
when no player matches), then `(currentIndex + 1) % players.length`, then
`this.currentPlayerId = players[nextIndex].id` (which stores `undefined` when
the index is out of range, as JS member access does). -/
def nextPlayerId (players : List PlayerS) (currentPlayerId : Option String) :
    Option String :=
  let currentIndex : Int :=
    match players.findIdx? (fun p => some p.id == currentPlayerId) with
    | some i => (i : Int)
    | none => -1
  let nextIndex := ((currentIndex + 1) % (players.length : Int)).toNat
  (players.get? nextIndex).map (fun p => p.id)

/-- `Game.playCards(player, cards, players)` of room.ts.  The source mutates
`this` and `player.hand`; the model returns the result flag together with
the updated game and acting player (`players` is only read, never written). -/
def playCards (g : Game) (player : PlayerS) (cards : List Card)
    (players : List PlayerS) : Bool × Game × PlayerS :=
  if g.phase ≠ GamePhase.PLAYING then (false, g, player)
  else if some player.id ≠ g.currentPlayerId then (false, g, player)
  else
    match validatePlay cards with
    | none => (false, g, player)
    | some play =>
      if (match g.lastPlay with
          | some lp => decide (g.passCount < 2) && !(canBeat play lp)
          | none => false) then (false, g, player)
      else
        let player2 : PlayerS := { player with hand := handRemove player.hand cards }
        let g2 : Game := { g with lastPlay := some play, passCount := 0 }
        if player2.hand.length == 0 then
          (true, { g2 with phase := GamePhase.FINISHED }, player2)
        else
          (true, { g2 with currentPlayerId := nextPlayerId players g.currentPlayerId },
           player2)

/-- `Game.pass(player, players)` of room.ts.  `pass` never touches any hand,
so the model returns only the result flag and the updated game. -/
def Game.pass (g : Game) (player : PlayerS) (players : List PlayerS) : Bool × Game :=
  if g.phase ≠ GamePhase.PLAYING then (false, g)
  else if some player.id ≠ g.currentPlayerId then (false, g)
  else if g.lastPlay = none then (false, g)
  else
    let newCount := g.passCount + 1
    let g2 : Game :=
      if newCount ≥ 2 then { g with lastPlay := none, passCount := 0 }
      else { g with passCount := newCount }
    (true, { g2 with currentPlayerId := nextPlayerId players g.currentPlayerId })

/-- `Game.becomeLandlord(player)` of room.ts: a no-op outside BIDDING;
otherwise records the player as landlord and current player, pushes
`landlordCards` into the player's hand and re-sorts it, moves to PLAYING and
clears `lastPlay` / `passCount`.  (The source does not clear
`this.landlordCards`.) -/
def becomeLandlord (g : Game) (player : PlayerS) : Game × PlayerS :=
  if g.phase ≠ GamePhase.BIDDING then (g, player)
  else
    let player2 : PlayerS := { player with hand := sortCards (player.hand ++ g.landlordCards) }
    ({ g with landlordId := some player.id,
              phase := GamePhase.PLAYING,
              currentPlayerId := some player.id,
              lastPlay := none,
              passCount := 0 }, player2)

/-- `Game.initializeDeck()` of room.ts: 4 suits × 13 ranks in the source's
fixed order, followed by the black and the red joker — 54 cards. -/
def initialDeck : List Card :=
  ((([Suit.h, Suit.d, Suit.c, Suit.s].map (fun suit =>
      [Rank.n3, Rank.n4, Rank.n5, Rank.n6, Rank.n7, Rank.n8, Rank.n9,
       Rank.t, Rank.j, Rank.q, Rank.k, Rank.a, Rank.n2].map
        (fun rank => Card.Revealed suit rank))).flatten)
    ++ [Card.Joker JokerColor.BLACK, Card.Joker JokerColor.RED])

/-- One step of the Fisher–Yates loop of `Game.shuffleDeck()`:
`[deck[i], deck[j]] = [deck[j], deck[i]]`.  JS evaluates the right-hand pair
first, so the assignment is `deck[i] := old deck[j]; deck[j] := old deck[i]`.
If either index is out of range the model leaves the list unchanged (the
source only swaps in-range indices). -/
def swapIdx (l : List Card) (i j : Nat) : List Card :=
  match l.get? i, l.get? j with
  | some a, some b => (l.set i b).set j a
  | _, _ => l

/-- The loop of `Game.shuffleDeck()` running from `index = n` down to `1`,
swapping position `index` with position `draws index`, where
`draws index = Math.floor(Math.random() * (index + 1))` is the random draw
of that iteration. -/
def shuffleGo (draws : Nat → Nat) : List Card → Nat → List Card
  | deck, 0 => deck
  | deck, n + 1 => shuffleGo draws (swapIdx deck (n + 1) (draws (n + 1))) n

/-- `Game.shuffleDeck()` of room.ts, parametrised by the sequence of random
draws. -/
def shuffleDeck (draws : Nat → Nat) (deck : List Card) : List Card :=
  shuffleGo draws deck (deck.length - 1)

/-- The inner `for (const player of players)` loop of `Game.dealCards`: push
`deck[cardIndex++]` onto each player's hand in seating order. -/
def dealOne (deck : List Card) : List PlayerS → Nat → List PlayerS × Nat
  | [], cardIndex => ([], cardIndex)
  | p :: rest, cardIndex =>
    let p2 : PlayerS := { p with hand := p.hand ++ [deck.getD cardIndex defaultCard] }
    let (rest2, cardIndex2) := dealOne deck rest (cardIndex + 1)
    (p2 :: rest2, cardIndex2)

/-- The outer `for (let index = 0; index < 17; index++)` loop of
`Game.dealCards`, by remaining iteration count. -/
def dealRounds (deck : List Card) : Nat → List PlayerS × Nat → List PlayerS × Nat
  | 0, st => st
  | n + 1, (ps, cardIndex) => dealRounds deck n (dealOne deck ps cardIndex)

/-- `Game.dealCards(players)` of room.ts: reserve `deck.slice(0, 3)` as
`landlordCards`, clear all hands, deal 17 rounds starting at card index 3,
then sort every hand.  Returns the landlord cards and the updated players. -/
def dealCards (deck : List Card) (players : List PlayerS) :
    List Card × List PlayerS :=
  let landlordCards := deck.take 3
  let cleared := players.map (fun p => { p with hand := ([] : List Card) })
  let (dealt, _) := dealRounds deck 17 (cleared, 3)
  (landlordCards, dealt.map (fun p => { p with hand := sortCards p.hand }))

/-- `Game.startGame(players)` of room.ts: a no-op unless exactly 3 players;
otherwise build the deck, shuffle it with the given random draws, deal, set
phase BIDDING and hand the turn to the first seat. -/
def startGame (g : Game) (players : List PlayerS) (draws : Nat → Nat) :
    Game × List PlayerS :=
  if players.length ≠ 3 then (g, players)
  else
    let deck := shuffleDeck draws initialDeck
    let (landlordCards, players2) := dealCards deck players
    ({ g with deck := deck,
              landlordCards := landlordCards,
              phase := GamePhase.BIDDING,
              currentPlayerId := (players.get? 0).map (fun p => p.id) }, players2)

example : initialDeck.length = 54 := by decide

/-- C2: for every pair of plays, `canBeat play lastPlay` returns true iff
the play is a rocket; or it is a bomb and the last play is neither a rocket
nor a bomb of equal-or-higher value; or type and card count match exactly and
the play's value is strictly higher.  In particular an equal-rank bomb does
not beat a bomb, and any type or size mismatch against a non-bomb,
non-rocket last play is rejected. -/
theorem canBeat_charact (play lastPlay : Play) :
    canBeat play lastPlay = true ↔
      (play.type = PlayType.ROCKET ∨
       (play.type = PlayType.BOMB ∧ lastPlay.type ≠ PlayType.ROCKET ∧
         (lastPlay.type ≠ PlayType.BOMB ∨ play.value > lastPlay.value)) ∨
       (play.type = lastPlay.type ∧ play.cards.length = lastPlay.cards.length ∧
         play.value > lastPlay.value)) := by
  unfold canBeat
  split_ifs <;> simp_all

/-- C5: whenever `playCards` or `pass` rejects (returns false) the entire
game state is unchanged — the game record (phase, currentPlayerId,
landlordId, lastPlay, passCount, landlordCards, deck) and the acting
player's hand are exactly as before the call; the `players` list is only
ever read by both operations, so no other hand can change. -/
theorem reject_no_mutation (g : Game) (player : PlayerS) (cards : List Card)
    (players : List PlayerS) :
    ((playCards g player cards players).1 = false →
      (playCards g player cards players).2.1 = g ∧
      (playCards g player cards players).2.2 = player) ∧
    ((g.pass player players).1 = false → (g.pass player players).2 = g) := by
  constructor
  · intro h
    simp only [playCards] at h ⊢
    cases hv : validatePlay cards with
    | none =>
      simp only [hv] at h ⊢
      split_ifs at h ⊢ <;> exact ⟨rfl, rfl⟩
    | some play =>
      simp only [hv] at h ⊢
      split_ifs at h ⊢ <;> exact ⟨rfl, rfl⟩
  · intro h
    simp only [Game.pass] at h ⊢
    split_ifs at h ⊢ <;> rfl

/-- Witness for C5: a concrete rejected call (wrong phase) leaves the state
unchanged. -/
theorem reject_no_mutation_witness :
    (playCards { phase := GamePhase.BIDDING } { id := "a", hand := [] } []
        []).2.1 = { phase := GamePhase.BIDDING } ∧
    (Game.pass { phase := GamePhase.BIDDING } { id := "a", hand := [] } []).2 =
      { phase := GamePhase.BIDDING } :=
  ⟨((reject_no_mutation { phase := GamePhase.BIDDING } { id := "a", hand := [] }
      [] []).1 (by decide)).1,
   (reject_no_mutation { phase := GamePhase.BIDDING } { id := "a", hand := [] }
      [] []).2 (by decide)⟩

/-- When the current player occupies seat `i`, the shared turn-advance code
yields the id of seat `(i + 1) % players.length`. -/
theorem nextPlayerId_of_findIdx (players : List PlayerS) (cid : Option String) (i : Nat)
    (hfind : players.findIdx? (fun p => some p.id == cid) = some i) :
    ∃ q : PlayerS, players.get? ((i + 1) % players.length) = some q ∧
      nextPlayerId players cid = some q.id := by
  obtain ⟨hi, -, -⟩ := List.findIdx?_eq_some_iff_getElem.mp hfind
  have hlen : 0 < players.length := Nat.lt_of_le_of_lt (Nat.zero_le i) hi
  have hmod : (i + 1) % players.length < players.length := Nat.mod_lt _ hlen
  have hcast : (((i : Int) + 1) % (players.length : Int)).toNat
      = (i + 1) % players.length := by
    rw [show ((i : Int) + 1) = ((i + 1 : Nat) : Int) by push_cast; ring]
    rw [← Int.ofNat_emod]
    exact Int.toNat_ofNat _
  refine ⟨players.get ⟨(i + 1) % players.length, hmod⟩, List.get?_eq_get hmod, ?_⟩
  simp only [nextPlayerId, hfind, hcast, List.get?_eq_get hmod, Option.map_some']

/-- C4: `pass` returns true iff the phase is PLAYING, the caller is the
current player and `lastPlay` is defined (a trick cannot be opened by
passing).  On success it increments `passCount`; when the incremented count
reaches 2 it clears `lastPlay` and resets `passCount` to 0; in either case
`currentPlayerId` advances to the next seat circularly — in particular the
turn still advances on the second consecutive pass. -/
theorem pass_spec (g : Game) (player : PlayerS) (players : List PlayerS) (i : Nat)
    (hfind : players.findIdx? (fun p => some p.id == g.currentPlayerId) = some i) :
    ((g.pass player players).1 = true ↔
      g.phase = GamePhase.PLAYING ∧ g.currentPlayerId = some player.id ∧
        g.lastPlay ≠ none) ∧
    ((g.pass player players).1 = true →
      ((g.passCount + 1 ≥ 2 →
         (g.pass player players).2.lastPlay = none ∧
         (g.pass player players).2.passCount = 0) ∧
       (g.passCount + 1 < 2 →
         (g.pass player players).2.lastPlay = g.lastPlay ∧
         (g.pass player players).2.passCount = g.passCount + 1) ∧
       ∃ q : PlayerS, players.get? ((i + 1) % players.length) = some q ∧
         (g.pass player players).2.currentPlayerId = some q.id)) := by
  obtain ⟨q, hq, hnext⟩ := nextPlayerId_of_findIdx players g.currentPlayerId i hfind
  simp only [Game.pass]
  split_ifs with h1 h2 h3 h4
  · refine ⟨?_, ?_⟩
    · simp only [Bool.false_eq_true, false_iff]
      rintro ⟨hph, -, -⟩
      exact h1 hph
    · intro ht
      exact absurd ht (by simp)
  · refine ⟨?_, ?_⟩
    · simp only [Bool.false_eq_true, false_iff]
      rintro ⟨-, hcid, -⟩
      exact h2 hcid.symm
    · intro ht
      exact absurd ht (by simp)
  · refine ⟨?_, ?_⟩
    · simp only [Bool.false_eq_true, false_iff]
      rintro ⟨-, -, hlp⟩
      exact hlp h3
    · intro ht
      exact absurd ht (by simp)
  · refine ⟨?_, ?_⟩
    · simp only [true_iff]
      exact ⟨not_not.mp h1, (not_not.mp h2).symm, h3⟩
    · intro _hp
      refine ⟨fun _ => ⟨rfl, rfl⟩, fun hlt => absurd h4 (by omega), q, hq, ?_⟩
      simpa using hnext
  · refine ⟨?_, ?_⟩
    · simp only [true_iff]
      exact ⟨not_not.mp h1, (not_not.mp h2).symm, h3⟩
    · intro _hp
      refine ⟨fun hge => absurd hge h4, fun _ => ⟨rfl, rfl⟩, q, hq, ?_⟩
      simpa using hnext

/-- Witness for C4: a concrete second consecutive pass clears the trick,
resets the pass counter to 0 and still advances the turn to seat 0. -/
theorem pass_spec_witness :
    letI soloPlay : Play := { cards := [Card.Revealed Suit.h Rank.n3],
                              type := PlayType.SOLO, value := 3 }
    letI g : Game := { currentPlayerId := some "c", lastPlay := some soloPlay,
                       phase := GamePhase.PLAYING, passCount := 1 }
    letI players : List PlayerS :=
      [{ id := "a", hand := [] }, { id := "b", hand := [] },
       { id := "c", hand := [] }]
    (g.pass { id := "c", hand := [] } players).1 = true ∧
    (g.pass { id := "c", hand := [] } players).2.lastPlay = none ∧
    (g.pass { id := "c", hand := [] } players).2.passCount = 0 ∧
    (g.pass { id := "c", hand := [] } players).2.currentPlayerId = some "a" := by
  have h := pass_spec
    { currentPlayerId := some "c",
      lastPlay := some { cards := [Card.Revealed Suit.h Rank.n3],
                         type := PlayType.SOLO, value := 3 },
      phase := GamePhase.PLAYING, passCount := 1 }
    { id := "c", hand := [] }
    [{ id := "a", hand := [] }, { id := "b", hand := [] }, { id := "c", hand := [] }]
    2 (by decide)
  have ht : True := trivial
  refine ⟨h.1.mpr ⟨rfl, rfl, by decide⟩, ?_, ?_, ?_⟩
  · exact ((h.2 (h.1.mpr ⟨rfl, rfl, by decide⟩)).1 (by decide)).1
  · exact ((h.2 (h.1.mpr ⟨rfl, rfl, by decide⟩)).1 (by decide)).2
  · obtain ⟨q, hq, hcid⟩ := (h.2 (h.1.mpr ⟨rfl, rfl, by decide⟩)).2.2
    rw [hcid]
    have : q = { id := "a", hand := [] } := by
      simpa using hq.symm
    rw [this]

/-- C10: `becomeLandlord` performs no turn-order check.  In BIDDING it
succeeds for every player — also one whose id differs from
`currentPlayerId` — recording that player as landlord and current player,
merging `landlordCards` into the player's re-sorted hand, moving to PLAYING
and clearing `lastPlay` / `passCount`; outside BIDDING it changes nothing. -/
theorem becomeLandlord_spec (g : Game) (player : PlayerS) :
    (g.phase = GamePhase.BIDDING →
      becomeLandlord g player =
        ({ g with landlordId := some player.id,
                  phase := GamePhase.PLAYING,
                  currentPlayerId := some player.id,
                  lastPlay := none,
                  passCount := 0 },
         { player with hand := sortCards (player.hand ++ g.landlordCards) })) ∧
    (g.phase ≠ GamePhase.BIDDING → becomeLandlord g player = (g, player)) := by
  constructor
  · intro hph
    simp [becomeLandlord, hph]
  · intro hph
    simp [becomeLandlord, hph]

/-- Witness for C10: a concrete BIDDING state in which the acting player is
not the current player; `becomeLandlord` still hands them the landlord
cards, the landlord role and the turn. -/
theorem becomeLandlord_spec_witness :
    becomeLandlord
        { landlordCards := [Card.Revealed Suit.h Rank.n3],
          currentPlayerId := some "a", phase := GamePhase.BIDDING }
        { id := "b", hand := [Card.Revealed Suit.s Rank.a] } =
      ({ landlordCards := [Card.Revealed Suit.h Rank.n3],
         landlordId := some "b",
         phase := GamePhase.PLAYING,
         currentPlayerId := some "b",
         lastPlay := none,
         passCount := 0 },
       { id := "b", hand := [Card.Revealed Suit.h Rank.n3, Card.Revealed Suit.s Rank.a] }) := by
  have h := (becomeLandlord_spec
    { landlordCards := [Card.Revealed Suit.h Rank.n3],
      currentPlayerId := some "a", phase := GamePhase.BIDDING }
    { id := "b", hand := [Card.Revealed Suit.s Rank.a] }).1 rfl
  rw [h]
  decide

/-- C6 (code behaviour at a failing input): after `becomeLandlord` the phase
is PLAYING and the three set-aside cards have been merged into the acting
player's hand — so the sum of hand sizes is 54 in a dealt position — but the
source never clears `this.landlordCards`, so the game's `landlordCards`
field still holds the same 3 cards instead of being empty. -/
theorem becomeLandlord_keeps_landlordCards :
    letI bottom : List Card := [Card.Revealed Suit.h Rank.n3,
      Card.Revealed Suit.d Rank.n4, Card.Revealed Suit.c Rank.n5]
    letI g : Game := { landlordCards := bottom,
                       currentPlayerId := some "a", phase := GamePhase.BIDDING }
    letI r := becomeLandlord g { id := "a", hand := [] }
    r.1.phase = GamePhase.PLAYING ∧
    r.2.hand = [Card.Revealed Suit.h Rank.n3, Card.Revealed Suit.d Rank.n4,
                Card.Revealed Suit.c Rank.n5] ∧
    r.1.landlordCards = [Card.Revealed Suit.h Rank.n3, Card.Revealed Suit.d Rank.n4,
                         Card.Revealed Suit.c Rank.n5] ∧
    r.1.landlordCards ≠ [] := by
  decide

/-- C9: `playCards` performs no ownership check.  In this PLAYING state the
current player submits a card that is not in their hand; the play is still
accepted: the result is true, `lastPlay` becomes the classified solo,
`passCount` resets, the hand is unchanged (`Hand.remove` silently skips
cards it does not find) and the turn advances to the next seat. -/
theorem playCards_no_ownership_check :
    letI g : Game := { currentPlayerId := some "a", lastPlay := none,
                       phase := GamePhase.PLAYING, passCount := 1 }
    letI pA : PlayerS := { id := "a", hand := [Card.Revealed Suit.h Rank.n4] }
    letI players : List PlayerS :=
      [pA, { id := "b", hand := [] }, { id := "c", hand := [] }]
    letI r := playCards g pA [Card.Revealed Suit.h Rank.n3] players
    (Card.Revealed Suit.h Rank.n3) ∉ pA.hand ∧
    r.1 = true ∧
    r.2.2.hand = [Card.Revealed Suit.h Rank.n4] ∧
    r.2.1.lastPlay = some { cards := [Card.Revealed Suit.h Rank.n3],
                            type := PlayType.SOLO, value := 3 } ∧
    r.2.1.passCount = 0 ∧
    r.2.1.phase = GamePhase.PLAYING ∧
    r.2.1.currentPlayerId = some "b" := by
  decide

/-- As a multiset, `Hand.remove` is truncated multiset difference: each
requested card removes one matching copy if present and is skipped
otherwise. -/
theorem handRemove_coe (hand cards : List Card) :
    ((handRemove hand cards : List Card) : Multiset Card) =
      (hand : Multiset Card) - (cards : Multiset Card) := by
  induction cards generalizing hand with
  | nil => simp [handRemove]
  | cons c cs ih =>
    have hstep : handRemove hand (c :: cs) = handRemove (hand.erase c) cs := rfl
    rw [hstep, ih (hand.erase c)]
    rw [show ((c :: cs : List Card) : Multiset Card) = c ::ₘ (cs : Multiset Card) from rfl]
    rw [Multiset.sub_cons, Multiset.coe_erase]

/-- C1: in PLAYING, when the current player submits a non-empty card list
that classifies to a play `p`, either no trick is open or `p` beats it, and
the player's hand contains the submitted cards, then `playCards` returns
true, removes exactly the submitted cards from the hand, sets `lastPlay` to
`p` and resets `passCount` to 0; if the hand is then empty the phase becomes
FINISHED and the turn does not advance, otherwise the phase stays PLAYING
and `currentPlayerId` becomes the id of the next seat circularly. -/
theorem playCards_accept_spec (g : Game) (player : PlayerS) (cards : List Card)
    (players : List PlayerS) (p : Play) (i : Nat)
    (hph : g.phase = GamePhase.PLAYING)
    (hcur : g.currentPlayerId = some player.id)
    (hval : validatePlay cards = some p)
    (hbeat : ∀ lp, g.lastPlay = some lp → canBeat p lp = true)
    (hsub : (cards : Multiset Card) ≤ (player.hand : Multiset Card))
    (hfind : players.findIdx? (fun q => some q.id == g.currentPlayerId) = some i) :
    ((playCards g player cards players).1 = true) ∧
    ((playCards g player cards players).2.2.hand : Multiset Card) =
      (player.hand : Multiset Card) - (cards : Multiset Card) ∧
    (playCards g player cards players).2.1.lastPlay = some p ∧
    (playCards g player cards players).2.1.passCount = 0 ∧
    ((playCards g player cards players).2.2.hand.length = 0 →
       (playCards g player cards players).2.1.phase = GamePhase.FINISHED ∧
       (playCards g player cards players).2.1.currentPlayerId = g.currentPlayerId) ∧
    ((playCards g player cards players).2.2.hand.length ≠ 0 →
       (playCards g player cards players).2.1.phase = GamePhase.PLAYING ∧
       ∃ q : PlayerS, players.get? ((i + 1) % players.length) = some q ∧
         (playCards g player cards players).2.1.currentPlayerId = some q.id) := by
  obtain ⟨q, hq, hnext⟩ := nextPlayerId_of_findIdx players g.currentPlayerId i hfind
  have h1 : ¬ (g.phase ≠ GamePhase.PLAYING) := by simp [hph]
  have h2 : ¬ (some player.id ≠ g.currentPlayerId) := by simp [hcur]
  have h3 : (match g.lastPlay with
      | some lp => decide (g.passCount < 2) && !(canBeat p lp)
      | none => false) = false := by
    cases hlp : g.lastPlay with
    | none => rfl
    | some lp => simp [hbeat lp hlp]
  simp only [playCards, hval, if_neg h1, if_neg h2, h3, Bool.false_eq_true,
    if_false, if_neg (Bool.false_ne_true)]
  by_cases hlen : (handRemove player.hand cards).length = 0
  · simp only [hlen, beq_self_eq_true, if_pos]
    refine ⟨trivial, handRemove_coe player.hand cards, trivial, trivial,
      fun _ => ⟨trivial, trivial⟩, fun hne => absurd rfl hne⟩
  · have hbeq : ((handRemove player.hand cards).length == 0) = false := by
      simpa using hlen
    simp only [hbeq, Bool.false_eq_true, if_false]
    refine ⟨trivial, handRemove_coe player.hand cards, trivial, trivial,
      fun h0 => absurd h0 hlen, fun _ => ⟨hph, q, hq, ?_⟩⟩
    simpa using hnext

/-- Witness for C1: a concrete accepted solo — played from a hand that
contains it — is removed from the hand, recorded as `lastPlay`, resets
`passCount`, and the turn advances from seat 0 to seat 1. -/
theorem playCards_accept_spec_witness :
    letI pA : PlayerS := { id := "a",
                           hand := [Card.Revealed Suit.h Rank.n3,
                                    Card.Revealed Suit.h Rank.n4] }
    letI players : List PlayerS :=
      [pA, { id := "b", hand := [] }, { id := "c", hand := [] }]
    letI r := playCards
      { currentPlayerId := some "a", lastPlay := none,
        phase := GamePhase.PLAYING, passCount := 1 }
      pA [Card.Revealed Suit.h Rank.n3] players
    r.1 = true ∧
    (r.2.2.hand : Multiset Card) =
      (pA.hand : Multiset Card) - ([Card.Revealed Suit.h Rank.n3] : Multiset Card) ∧
    r.2.1.lastPlay = some { cards := [Card.Revealed Suit.h Rank.n3],
                            type := PlayType.SOLO, value := 3 } ∧
    r.2.1.passCount = 0 ∧
    (r.2.2.hand.length ≠ 0 →
      r.2.1.phase = GamePhase.PLAYING ∧
      ∃ q : PlayerS, players.get? ((0 + 1) % players.length) = some q ∧
        r.2.1.currentPlayerId = some q.id) := by
  have h := playCards_accept_spec
    { currentPlayerId := some "a", lastPlay := none,
      phase := GamePhase.PLAYING, passCount := 1 }
    { id := "a", hand := [Card.Revealed Suit.h Rank.n3, Card.Revealed Suit.h Rank.n4] }
    [Card.Revealed Suit.h Rank.n3]
    [{ id := "a", hand := [Card.Revealed Suit.h Rank.n3, Card.Revealed Suit.h Rank.n4] },
     { id := "b", hand := [] }, { id := "c", hand := [] }]
    { cards := [Card.Revealed Suit.h Rank.n3], type := PlayType.SOLO, value := 3 }
    0 rfl rfl (by decide) (fun lp hlp => nomatch hlp) (by decide) (by decide)
  exact ⟨h.1, h.2.1, h.2.2.1, h.2.2.2.1, h.2.2.2.2.2⟩

/-- The `index`-th group of `groupSize` consecutive cards examined by
`Game.isStraight`: `sorted.slice(index * groupSize, (index + 1) * groupSize)`. -/
def blockCards (sorted : List Card) (groupSize i : Nat) : List Card :=
  (sorted.drop (i * groupSize)).take groupSize

/-- Minimum group counts required by `Game.isStraight`: 5 for singles,
3 for pairs, 2 for everything else (in particular triples), written as in
the source's inline conditional. -/
def minGroups (g : Nat) : Nat :=
  if g = 1 then 5 else if g = 2 then 3 else 2

/-- Every group-size requires at least 2 groups. -/
theorem two_le_minGroups (g : Nat) : 2 ≤ minGroups g := by
  unfold minGroups
  split_ifs <;> omega

/-- A card that is not a joker is revealed. -/
theorem isRevealed_of_not_isJoker {c : Card} (h : c.isJoker = false) :
    c.isRevealed = true := by
  cases c <;> simp_all [Card.isJoker, Card.isRevealed]

/-- Cards with matching ranks have equal values. -/
theorem rankMatches_getCardValue {c d : Card} (h : rankMatches c d = true) :
    getCardValue c = getCardValue d := by
  cases c with
  | Joker _ => simp [rankMatches] at h
  | Revealed sc rc =>
    cases d with
    | Joker _ => simp [rankMatches] at h
    | Revealed sd rd =>
      simp only [rankMatches, decide_eq_true_eq] at h
      subst h
      rfl

/-- A revealed card's value is at most 15. -/
theorem getCardValue_le_of_isRevealed {c : Card} (h : c.isRevealed = true) :
    getCardValue c ≤ 15 := by
  cases c with
  | Revealed s r => cases r <;> simp [getCardValue]
  | Joker _ => simp [Card.isRevealed] at h

/-- The head of a nonempty block is the card at its start index. -/
theorem blockCards_head (sorted : List Card) (g i : Nat) (hg : 0 < g)
    (hlt : i * g < sorted.length) :
    (blockCards sorted g i).headD defaultCard = sorted.getD (i * g) defaultCard := by
  obtain ⟨k, rfl⟩ : ∃ k, g = k + 1 := ⟨g - 1, by omega⟩
  rw [blockCards, List.drop_eq_getElem_cons hlt, List.take_succ_cons, List.headD_cons]
  exact (List.getD_eq_getElem sorted defaultCard hlt).symm

/-- Every card of a block is a card of the list. -/
theorem mem_of_mem_blockCards {sorted : List Card} {g i : Nat} {c : Card}
    (h : c ∈ blockCards sorted g i) : c ∈ sorted :=
  List.drop_subset _ _ (List.take_subset _ _ h)

/-- The card at position `p` lies in block number `p / g`. -/
theorem getElem_mem_blockCards (sorted : List Card) (g p : Nat) (hg : 0 < g)
    (hp : p < sorted.length) :
    sorted[p] ∈ blockCards sorted g (p / g) := by
  have e : g * (p / g) + p % g = p := Nat.div_add_mod p g
  have hm : p % g < g := Nat.mod_lt _ hg
  have hidx : p % g < (blockCards sorted g (p / g)).length := by
    simp only [blockCards, List.length_take, List.length_drop]
    rw [Nat.mul_comm (p / g) g]
    omega
  have hval : (blockCards sorted g (p / g)).get ⟨p % g, hidx⟩ = sorted[p] := by
    rw [List.get_eq_getElem]
    simp only [blockCards]
    rw [List.getElem_take, List.getElem_drop]
    congr 1
    rw [Nat.mul_comm (p / g) g]
    omega
  rw [← hval]
  exact List.get_mem _ _ _

/-- An `if` of a decided proposition over `false` is true iff condition and
proposition both hold. -/
theorem ite_decide_eq_true {C : Prop} [Decidable C] {P : Prop} [Decidable P] :
    ((if C then decide P else false) = true) ↔ (C ∧ P) := by
  split_ifs with h <;> simp [h]

/-- Characterization of `Game.isStraight` for positive group sizes: it
accepts exactly the joker-free lists that split evenly into single-rank
blocks whose head values rise by exactly 1, contain no card of value 15
(the rank "2"), and have at least `minGroups` blocks. -/
theorem isStraight_iff_aux (sorted : List Card) (g : Nat) (hg0 : 0 < g) :
    isStraight sorted g = true ↔
      ((∀ c ∈ sorted, c.isJoker = false) ∧
       sorted.length % g = 0 ∧
       (∀ i < sorted.length / g, ∀ c ∈ blockCards sorted g i,
          rankMatches c (sorted.getD (i * g) defaultCard) = true) ∧
       (∀ i, i + 1 < sorted.length / g →
          getCardValue (sorted.getD ((i + 1) * g) defaultCard) =
            getCardValue (sorted.getD (i * g) defaultCard) + 1) ∧
       (∀ c ∈ sorted, getCardValue c ≠ 15) ∧
       sorted.length / g ≥ minGroups g) := by
  by_cases hmod : sorted.length % g = 0
  case neg =>
    rw [isStraight, if_pos hmod]
    simp [hmod]
  case pos =>
  by_cases hjk : sorted.any (fun c => c.isJoker) = true
  case pos =>
    rw [isStraight, if_neg (not_not_intro hmod), if_pos hjk]
    obtain ⟨c, hc, hcj⟩ := List.any_eq_true.mp hjk
    simp only [Bool.false_eq_true, false_iff]
    rintro ⟨h1, -⟩
    rw [h1 c hc] at hcj
    exact Bool.false_ne_true hcj
  case neg =>
  have hnoj : ∀ c ∈ sorted, c.isJoker = false := by
    intro c hc
    by_contra hne
    exact hjk (List.any_eq_true.mpr ⟨c, hc, by simpa using hne⟩)
  rw [isStraight, if_neg (not_not_intro hmod), if_neg hjk, ite_decide_eq_true]
  have hNg : sorted.length / g * g = sorted.length :=
    Nat.div_mul_cancel (Nat.dvd_of_mod_eq_zero hmod)
  have hlt : ∀ i, i < sorted.length / g → i * g < sorted.length := by
    intro i hi
    calc i * g < sorted.length / g * g := (Nat.mul_lt_mul_right hg0).mpr hi
    _ = sorted.length := hNg
  constructor
  · rintro ⟨hloop, hmin⟩
    have hbody := fun (i : Nat) (hi : i < sorted.length / g) =>
      List.all_eq_true.mp hloop _ (List.mem_range.mpr hi)
    refine ⟨hnoj, hmod, ?_, ?_, ?_, hmin⟩
    · -- each block matches the rank of its head
      intro i hi c hc
      have hb := hbody i hi
      simp only [Bool.and_eq_true] at hb
      obtain ⟨⟨-, hall2⟩, -⟩ := hb
      have hc2 := List.all_eq_true.mp hall2 c (by simpa [blockCards] using hc)
      simp only [Bool.and_eq_true] at hc2
      have hrm := hc2.2
      rwa [show (sorted.drop (i * g)).take g = blockCards sorted g i from rfl,
           blockCards_head sorted g i hg0 (hlt i hi)] at hrm
    · -- consecutive block heads rise by exactly 1
      intro i hi
      have hb := hbody (i + 1) hi
      simp only [Bool.and_eq_true, Bool.or_eq_true] at hb
      obtain ⟨-, hor⟩ := hb
      rcases hor with h0 | ⟨heq, -⟩
      · simp at h0
      · have heq2 := of_decide_eq_true heq
        rwa [show (sorted.drop ((i + 1) * g)).take g = blockCards sorted g (i + 1) from rfl,
             blockCards_head sorted g (i + 1) hg0 (hlt _ hi),
             Nat.add_sub_cancel] at heq2
    · -- no card of value 15
      intro c hc
      obtain ⟨p, hp, rfl⟩ := List.mem_iff_getElem.mp hc
      have hiN : p / g < sorted.length / g :=
        Nat.div_lt_div_of_lt_of_dvd (Nat.dvd_of_mod_eq_zero hmod) hp
      have hmem := getElem_mem_blockCards sorted g p hg0 hp
      have hb := hbody (p / g) hiN
      simp only [Bool.and_eq_true, Bool.or_eq_true] at hb
      obtain ⟨⟨-, hall2⟩, hor⟩ := hb
      have hc2 := List.all_eq_true.mp hall2 _ (by simpa [blockCards] using hmem)
      simp only [Bool.and_eq_true] at hc2
      have hrm := hc2.2
      rw [show (sorted.drop (p / g * g)).take g = blockCards sorted g (p / g) from rfl,
          blockCards_head sorted g (p / g) hg0 (hlt _ hiN)] at hrm
      have hveq : getCardValue sorted[p] =
          getCardValue (sorted.getD (p / g * g) defaultCard) :=
        rankMatches_getCardValue hrm
      rcases Nat.eq_zero_or_pos (p / g) with hz | hpos
      · -- block 0: bound via block 1
        have h2le : 2 ≤ sorted.length / g := le_trans (two_le_minGroups g) hmin
        have hb1 := hbody 1 (by omega)
        simp only [Bool.and_eq_true, Bool.or_eq_true] at hb1
        obtain ⟨-, hor1⟩ := hb1
        rcases hor1 with h0 | ⟨heq1, hlt1⟩
        · simp at h0
        · have heqv := of_decide_eq_true heq1
          have hltv := of_decide_eq_true hlt1
          rw [show (sorted.drop (1 * g)).take g = blockCards sorted g 1 from rfl,
              blockCards_head sorted g 1 hg0 (hlt 1 (by omega))] at heqv hltv
          rw [hveq, hz]
          simp only [Nat.zero_mul]
          simp only [Nat.sub_self, Nat.zero_mul] at heqv
          omega
      · rcases hor with h0 | ⟨-, hlt15⟩
        · simp at h0
          omega
        · have hltv := of_decide_eq_true hlt15
          rw [show (sorted.drop (p / g * g)).take g = blockCards sorted g (p / g) from rfl,
              blockCards_head sorted g (p / g) hg0 (hlt _ hiN)] at hltv
          omega
  · rintro ⟨-, -, h3, h4, h5, h6⟩
    refine ⟨List.all_eq_true.mpr ?_, h6⟩
    intro i hiM
    have hi : i < sorted.length / g := List.mem_range.mp hiM
    have hlt_i := hlt i hi
    have hrev : ∀ c ∈ blockCards sorted g i, c.isRevealed = true := fun c hc =>
      isRevealed_of_not_isJoker (hnoj c (mem_of_mem_blockCards hc))
    simp only [Bool.and_eq_true]
    refine ⟨⟨?_, ?_⟩, ?_⟩
    · simp only [Bool.not_eq_true']
      refine List.any_eq_false.mpr ?_
      intro c hc
      simp [hrev c (by simpa [blockCards] using hc)]
    · refine List.all_eq_true.mpr ?_
      intro c hc
      have hcb : c ∈ blockCards sorted g i := by simpa [blockCards] using hc
      simp only [Bool.and_eq_true]
      refine ⟨hrev c hcb, ?_⟩
      rw [show (sorted.drop (i * g)).take g = blockCards sorted g i from rfl,
          blockCards_head sorted g i hg0 hlt_i]
      exact h3 i hi c hcb
    · rcases Nat.eq_zero_or_pos i with rfl | hpos
      · simp
      · rw [Bool.or_eq_true]
        refine Or.inr ?_
        obtain ⟨j, rfl⟩ : ∃ j, i = j + 1 := ⟨i - 1, by omega⟩
        simp only [Bool.and_eq_true, decide_eq_true_eq]
        rw [show (sorted.drop ((j + 1) * g)).take g = blockCards sorted g (j + 1) from rfl,
            blockCards_head sorted g (j + 1) hg0 hlt_i, Nat.add_sub_cancel]
        have hd : sorted.getD ((j + 1) * g) defaultCard = sorted[(j + 1) * g] :=
          List.getD_eq_getElem _ _ hlt_i
        refine ⟨h4 j hi, ?_⟩
        have hmm : sorted[(j + 1) * g] ∈ sorted := List.getElem_mem hlt_i
        have hrev2 : (sorted[(j + 1) * g]).isRevealed = true :=
          isRevealed_of_not_isJoker (hnoj _ hmm)
        have hle := getCardValue_le_of_isRevealed hrev2
        have hne := h5 _ hmm
        rw [hd]
        omega

/-- C3: for every card list sorted ascending by rank value and every group
size in {1,2,3}, `isStraight` returns true iff no card is a joker, the
length divides evenly into blocks of the group size, each block holds a
single rank, consecutive blocks rise by exactly one rank value, no card of
the straight is a "2" (rank value 15) — so an Ace (value 14) may be the
top — and there are at least 5 / 3 / 2 blocks for group sizes 1 / 2 / 3.
Consequently `classify` rejects A-2-3-4-5 (no wrap through "2"). -/
theorem isStraight_charact :
    (∀ (sorted : List Card) (g : Nat), g ∈ ([1, 2, 3] : List Nat) →
      sorted.Pairwise cardLE →
      (isStraight sorted g = true ↔
        ((∀ c ∈ sorted, c.isJoker = false) ∧
         sorted.length % g = 0 ∧
         (∀ i < sorted.length / g, ∀ c ∈ blockCards sorted g i,
            rankMatches c (sorted.getD (i * g) defaultCard) = true) ∧
         (∀ i, i + 1 < sorted.length / g →
            getCardValue (sorted.getD ((i + 1) * g) defaultCard) =
              getCardValue (sorted.getD (i * g) defaultCard) + 1) ∧
         (∀ c ∈ sorted, getCardValue c ≠ 15) ∧
         sorted.length / g ≥ minGroups g))) ∧
    validatePlay [Card.Revealed .h .a, Card.Revealed .s .n2, Card.Revealed .c .n3,
                  Card.Revealed .d .n4, Card.Revealed .h .n5] = none := by
  refine ⟨?_, by decide⟩
  intro sorted g hg hsorted
  have hg0 : 0 < g := by
    have h123 : g = 1 ∨ g = 2 ∨ g = 3 := by simpa using hg
    rcases h123 with rfl | rfl | rfl <;> norm_num
  exact isStraight_iff_aux sorted g hg0

/-- Witness for C3: the concrete straight 3-4-5-6-7 of singles satisfies all
block conditions of the characterization. -/
theorem isStraight_charact_witness :
    letI l : List Card := [Card.Revealed .h .n3, Card.Revealed .d .n4,
      Card.Revealed .c .n5, Card.Revealed .s .n6, Card.Revealed .h .n7]
    (∀ c ∈ l, c.isJoker = false) ∧
    l.length % 1 = 0 ∧
    (∀ i < l.length / 1, ∀ c ∈ blockCards l 1 i,
       rankMatches c (l.getD (i * 1) defaultCard) = true) ∧
    (∀ i, i + 1 < l.length / 1 →
       getCardValue (l.getD ((i + 1) * 1) defaultCard) =
         getCardValue (l.getD (i * 1) defaultCard) + 1) ∧
    (∀ c ∈ l, getCardValue c ≠ 15) ∧
    l.length / 1 ≥ minGroups 1 :=
  (isStraight_charact.1
    [Card.Revealed .h .n3, Card.Revealed .d .n4, Card.Revealed .c .n5,
     Card.Revealed .s .n6, Card.Revealed .h .n7] 1
    (by decide) (by decide)).mp (by decide)

/-- Reading position `m` of `t` to the front while writing `x` at `m`
permutes prepending `x` itself. -/
theorem cons_set_perm {α : Type} (t : List α) (m : Nat) (b x : α)
    (hb : t.get? m = some b) : (b :: t.set m x).Perm (x :: t) := by
  induction t generalizing m with
  | nil => simp at hb
  | cons y t ih =>
    cases m with
    | zero =>
      simp only [List.get?_cons_zero, Option.some.injEq] at hb
      subst hb
      exact List.Perm.swap x y t
    | succ m =>
      simp only [List.get?_cons_succ] at hb
      exact (List.Perm.swap y b (t.set m x)).trans
        (((ih m hb).cons y).trans (List.Perm.swap x y t))

/-- Writing position `j`'s element at `i` and position `i`'s element at `j`
is a permutation. -/
theorem set_set_perm (l : List Card) (i j : Nat) (a b : Card)
    (hi : l.get? i = some a) (hj : l.get? j = some b) :
    ((l.set i b).set j a).Perm l := by
  induction l generalizing i j with
  | nil => simp at hi
  | cons y t ih =>
    cases i with
    | zero =>
      simp only [List.get?_cons_zero, Option.some.injEq] at hi
      subst hi
      cases j with
      | zero =>
        simp only [List.get?_cons_zero, Option.some.injEq] at hj
        subst hj
        exact List.Perm.refl _
      | succ m =>
        simp only [List.get?_cons_succ] at hj
        exact cons_set_perm t m b y hj
    | succ k =>
      simp only [List.get?_cons_succ] at hi
      cases j with
      | zero =>
        simp only [List.get?_cons_zero, Option.some.injEq] at hj
        subst hj
        exact cons_set_perm t k a y hi
      | succ m =>
        simp only [List.get?_cons_succ] at hj
        exact (ih k m hi hj).cons y

/-- One Fisher–Yates swap is a permutation (also when an index is out of
range, in which case the list is unchanged). -/
theorem swapIdx_perm (l : List Card) (i j : Nat) : (swapIdx l i j).Perm l := by
  unfold swapIdx
  cases hi : l.get? i with
  | none => exact List.Perm.refl l
  | some a =>
    cases hj : l.get? j with
    | none => exact List.Perm.refl l
    | some b => exact set_set_perm l i j a b hi hj

/-- The whole shuffle loop is a permutation, for every draw sequence. -/
theorem shuffleGo_perm (draws : Nat → Nat) (deck : List Card) (n : Nat) :
    (shuffleGo draws deck n).Perm deck := by
  induction n generalizing deck with
  | zero => exact List.Perm.refl deck
  | succ n ih =>
    exact (ih (swapIdx deck (n + 1) (draws (n + 1)))).trans
      (swapIdx_perm deck (n + 1) (draws (n + 1)))

/-- `Game.shuffleDeck` permutes the deck, for every draw sequence. -/
theorem shuffleDeck_perm (draws : Nat → Nat) (deck : List Card) :
    (shuffleDeck draws deck).Perm deck :=
  shuffleGo_perm draws deck (deck.length - 1)

/-- The cards that seat `seat` receives from 17 rounds of round-robin
dealing starting at `cardIndex`: deck positions `cardIndex + 3k + seat`. -/
def dealSlice (deck : List Card) (cardIndex seat n : Nat) : List Card :=
  (List.range n).map (fun k => deck.getD (cardIndex + 3 * k + seat) defaultCard)

/-- Peeling one round off a deal slice. -/
theorem dealSlice_succ (deck : List Card) (ci seat n : Nat) :
    dealSlice deck ci seat (n + 1) =
      deck.getD (ci + seat) defaultCard :: dealSlice deck (ci + 3) seat n := by
  unfold dealSlice
  rw [List.range_succ_eq_map, List.map_cons, List.map_map]
  refine congrArg₂ List.cons (by norm_num) (List.map_congr_left ?_)
  intro k _hk
  show deck.getD (ci + 3 * (k + 1) + seat) defaultCard
      = deck.getD (ci + 3 + 3 * k + seat) defaultCard
  congr 1
  ring

/-- Closed form of the 17-round dealing loop for exactly three seats: each
round hands one deck card to each seat in order, so seat `s` accumulates the
deck positions `ci + 3k + s`. -/
theorem dealRounds_three (deck : List Card) (n : Nat) :
    ∀ (p0 p1 p2 : PlayerS) (ci : Nat),
      dealRounds deck n ([p0, p1, p2], ci) =
        ([{ p0 with hand := p0.hand ++ dealSlice deck ci 0 n },
          { p1 with hand := p1.hand ++ dealSlice deck ci 1 n },
          { p2 with hand := p2.hand ++ dealSlice deck ci 2 n }], ci + 3 * n) := by
  induction n with
  | zero =>
    intro p0 p1 p2 ci
    simp [dealRounds, dealSlice]
  | succ n ih =>
    intro p0 p1 p2 ci
    have hone : dealOne deck [p0, p1, p2] ci =
        ([{ p0 with hand := p0.hand ++ [deck.getD ci defaultCard] },
          { p1 with hand := p1.hand ++ [deck.getD (ci + 1) defaultCard] },
          { p2 with hand := p2.hand ++ [deck.getD (ci + 2) defaultCard] }], ci + 3) := rfl
    rw [show dealRounds deck (n + 1) ([p0, p1, p2], ci)
          = dealRounds deck n (dealOne deck [p0, p1, p2] ci) from rfl, hone, ih]
    rw [dealSlice_succ, dealSlice_succ, dealSlice_succ]
    simp only [List.append_assoc, List.singleton_append]
    refine congrArg₂ Prod.mk ?_ (by ring)
    norm_num

/-- The three seats' slices together hold exactly the dealt deck segment. -/
theorem dealSlice_multiset (deck : List Card) (n : Nat) :
    ∀ ci, ci + 3 * n ≤ deck.length →
      ((dealSlice deck ci 0 n : List Card) : Multiset Card)
        + ((dealSlice deck ci 1 n : List Card) : Multiset Card)
        + ((dealSlice deck ci 2 n : List Card) : Multiset Card)
        = (((deck.drop ci).take (3 * n) : List Card) : Multiset Card) := by
  induction n with
  | zero =>
    intro ci h
    simp [dealSlice]
  | succ n ih =>
    intro ci h
    have h0 : ci < deck.length := by omega
    have h1 : ci + 1 < deck.length := by omega
    have h2 : ci + 2 < deck.length := by omega
    have hre : (deck.drop ci).take (3 * (n + 1)) =
        deck.getD ci defaultCard :: deck.getD (ci + 1) defaultCard ::
        deck.getD (ci + 2) defaultCard :: (deck.drop (ci + 3)).take (3 * n) := by
      rw [show 3 * (n + 1) = 3 * n + 1 + 1 + 1 from by ring]
      rw [List.drop_eq_getElem_cons h0, List.take_succ_cons,
          List.drop_eq_getElem_cons h1, List.take_succ_cons,
          List.drop_eq_getElem_cons h2, List.take_succ_cons]
      rw [List.getD_eq_getElem deck defaultCard h0,
          List.getD_eq_getElem deck defaultCard h1,
          List.getD_eq_getElem deck defaultCard h2]
    rw [hre, dealSlice_succ, dealSlice_succ, dealSlice_succ]
    have hih := ih (ci + 3) (by omega)
    rw [← Multiset.cons_coe, ← Multiset.cons_coe, ← Multiset.cons_coe, ← Multiset.cons_coe,
        ← Multiset.cons_coe, ← Multiset.cons_coe, ← hih]
    simp only [Multiset.cons_add, Multiset.add_cons]
    rw [show ci + 0 = ci from rfl]
    rw [Multiset.cons_swap (deck.getD (ci + 2) defaultCard) (deck.getD (ci + 1) defaultCard)]
    rw [Multiset.cons_swap (deck.getD (ci + 2) defaultCard) (deck.getD ci defaultCard)]
    rw [Multiset.cons_swap (deck.getD (ci + 1) defaultCard) (deck.getD ci defaultCard)]

/-- Sorting a hand does not change its multiset of cards. -/
theorem sortCards_coe (l : List Card) :
    ((sortCards l : List Card) : Multiset Card) = (l : Multiset Card) :=
  Multiset.coe_eq_coe.mpr (List.perm_insertionSort cardLE l)

/-- Sorting a hand does not change its size. -/
theorem sortCards_length (l : List Card) : (sortCards l).length = l.length :=
  (List.perm_insertionSort cardLE l).length_eq

/-- A sorted hand is ascending by card value. -/
theorem sortCards_sorted (l : List Card) : (sortCards l).Pairwise cardLE :=
  List.sorted_insertionSort cardLE l

/-- C7: `startGame` with a player count other than 3 is a no-op.  With
exactly 3 players and any outcome of the shuffle's random draws: the
post-shuffle deck is a permutation of the canonical 54-card multiset,
`landlordCards` is the first 3 cards of the shuffled deck, the remaining 51
cards are dealt round-robin (seat `s` receives deck positions `3 + 3k + s`),
every hand has exactly 17 cards sorted ascending by card value, the three
hands plus `landlordCards` partition the 54 cards, the phase becomes BIDDING
and `currentPlayerId` is the first player's id. -/
theorem startGame_spec :
    (∀ (g : Game) (players : List PlayerS) (draws : Nat → Nat),
       players.length ≠ 3 → startGame g players draws = (g, players)) ∧
    (∀ (g : Game) (p0 p1 p2 : PlayerS) (draws : Nat → Nat),
       ((shuffleDeck draws initialDeck : List Card) : Multiset Card) =
         (initialDeck : Multiset Card) ∧
       (startGame g [p0, p1, p2] draws).1.deck = shuffleDeck draws initialDeck ∧
       (startGame g [p0, p1, p2] draws).1.landlordCards =
         (shuffleDeck draws initialDeck).take 3 ∧
       (startGame g [p0, p1, p2] draws).1.phase = GamePhase.BIDDING ∧
       (startGame g [p0, p1, p2] draws).1.currentPlayerId = some p0.id ∧
       (startGame g [p0, p1, p2] draws).2 =
         [{ p0 with hand := sortCards (dealSlice (shuffleDeck draws initialDeck) 3 0 17) },
          { p1 with hand := sortCards (dealSlice (shuffleDeck draws initialDeck) 3 1 17) },
          { p2 with hand := sortCards (dealSlice (shuffleDeck draws initialDeck) 3 2 17) }] ∧
       (∀ q ∈ (startGame g [p0, p1, p2] draws).2,
          q.hand.length = 17 ∧ q.hand.Pairwise cardLE) ∧
       ((sortCards (dealSlice (shuffleDeck draws initialDeck) 3 0 17) : Multiset Card) +
        (sortCards (dealSlice (shuffleDeck draws initialDeck) 3 1 17) : Multiset Card) +
        (sortCards (dealSlice (shuffleDeck draws initialDeck) 3 2 17) : Multiset Card) +
        ((startGame g [p0, p1, p2] draws).1.landlordCards : Multiset Card) =
        (initialDeck : Multiset Card))) := by
  constructor
  · intro g players draws hne
    rw [startGame, if_pos hne]
  · intro g p0 p1 p2 draws
    have hperm : (shuffleDeck draws initialDeck).Perm initialDeck :=
      shuffleDeck_perm draws initialDeck
    have hpm : ((shuffleDeck draws initialDeck : List Card) : Multiset Card) =
        (initialDeck : Multiset Card) := Multiset.coe_eq_coe.mpr hperm
    have hlen : (shuffleDeck draws initialDeck).length = 54 := by
      rw [hperm.length_eq]
      rfl
    have hdc : dealCards (shuffleDeck draws initialDeck) [p0, p1, p2] =
        ((shuffleDeck draws initialDeck).take 3,
         [{ p0 with hand := sortCards (dealSlice (shuffleDeck draws initialDeck) 3 0 17) },
          { p1 with hand := sortCards (dealSlice (shuffleDeck draws initialDeck) 3 1 17) },
          { p2 with hand := sortCards (dealSlice (shuffleDeck draws initialDeck) 3 2 17) }]) := by
      simp only [dealCards, List.map_cons, List.map_nil]
      rw [dealRounds_three (shuffleDeck draws initialDeck) 17]
      simp
    have hsg : startGame g [p0, p1, p2] draws =
        ({ g with deck := shuffleDeck draws initialDeck,
                  landlordCards := (shuffleDeck draws initialDeck).take 3,
                  phase := GamePhase.BIDDING,
                  currentPlayerId := some p0.id },
         [{ p0 with hand := sortCards (dealSlice (shuffleDeck draws initialDeck) 3 0 17) },
          { p1 with hand := sortCards (dealSlice (shuffleDeck draws initialDeck) 3 1 17) },
          { p2 with hand := sortCards (dealSlice (shuffleDeck draws initialDeck) 3 2 17) }]) := by
      rw [startGame, if_neg (by norm_num)]
      simp only [hdc]
      rfl
    have hslen : ∀ s, (dealSlice (shuffleDeck draws initialDeck) 3 s 17).length = 17 := by
      intro s
      simp [dealSlice]
    refine ⟨hpm, by rw [hsg], by rw [hsg], by rw [hsg], by rw [hsg], by rw [hsg], ?_, ?_⟩
    · intro q hq
      rw [hsg] at hq
      simp only [List.mem_cons, List.not_mem_nil, or_false] at hq
      rcases hq with rfl | rfl | rfl <;>
        · simp only []
          exact ⟨by rw [sortCards_length, hslen], sortCards_sorted _⟩
    · rw [hsg]
      simp only []
      rw [sortCards_coe, sortCards_coe, sortCards_coe]
      rw [dealSlice_multiset (shuffleDeck draws initialDeck) 17 3 (by omega)]
      have h51 : ((shuffleDeck draws initialDeck).drop 3).take (3 * 17) =
          (shuffleDeck draws initialDeck).drop 3 := by
        apply List.take_of_length_le
        rw [List.length_drop, hlen]
      rw [h51, add_comm, Multiset.coe_add, List.take_append_drop]
      exact hpm

/-- Witness for C7: starting with an empty seat list changes nothing. -/
theorem startGame_spec_witness :
    startGame {} [] (fun _ => 0) = ({}, []) :=
  startGame_spec.1 {} [] (fun _ => 0) (by decide)

namespace NetView

/-- `PlayerStatus` of src/shared/player.ts. -/
inductive PlayerStatus where
  | READY | NOT_READY | DISCONNECTED
deriving DecidableEq, Repr

/-- The card type used by the src/shared/game.ts engine.  It is declared in
`src/shared/card.ts`, a file not among the provided sources; the three
variants are reconstructed from their uses in game.ts (`initializeDeck`
builds `{type:"Playing", suit, rank}` with ranks 1..13 and the two jokers;
`Hand.getCardValue` switches over "Joker" / "Playing" / "Flipped") and
player.ts (`serialize` emits `{type:"Flipped"}` placeholders). -/
inductive Card where
  | Playing (suit : Suit) (rank : Nat)
  | Joker (color : JokerColor)
  | Flipped
deriving DecidableEq, Repr

/-- `interface Play` of game.ts. -/
structure Play where
  cards : List Card
  type : PlayType
  value : Nat
  playerIndex : Nat
deriving DecidableEq, Repr

/-- `interface SerializedPlayer` of player.ts (lines 4-10). -/
structure SerializedPlayer where
  id : String
  name : String
  status : PlayerStatus
  hand : List Card
  score : Int
deriving DecidableEq, Repr

/-- `class Player` of player.ts: id, name, status, score and an owned hand
(modelled by the hand's card list). -/
structure Player where
  id : String
  name : String
  status : PlayerStatus
  score : Int
  hand : List Card
deriving DecidableEq, Repr

/-- `Player.serialize(hidden)` of player.ts (lines 35-47): with
`hidden = true` the hand is replaced by a same-length array of `Flipped`
placeholders (`Array.from({length: n}).fill({type: "Flipped"})`). -/
def Player.serialize (p : Player) (hidden : Bool) : SerializedPlayer :=
  { id := p.id, name := p.name, status := p.status,
    hand := if hidden then List.replicate p.hand.length Card.Flipped else p.hand,
    score := p.score }

/-- `interface SerializedGame` of game.ts. -/
structure SerializedGame where
  bottom : List Card
  currentIndex : Nat
  lastPlay : Option Play
  phase : GamePhase
  players : List SerializedPlayer
  bet : Nat
  landlordIndex : Option Nat
deriving DecidableEq, Repr

/-- The state fields of `class Game` in game.ts. -/
structure Game where
  bottom : List Card
  players : List Player
  currentIndex : Nat
  bet : Nat
  landlordIndex : Option Nat
  lastPlay : Option Play
  phase : GamePhase
deriving DecidableEq, Repr

/-- `this.players.map((player, index) => player.serialize(index !== toIndex))`
of `Game.serialize`, with the running index made explicit. -/
def serializePlayers (toIndex : Nat) : Nat → List Player → List SerializedPlayer
  | _, [] => []
  | idx, p :: rest =>
    p.serialize (idx != toIndex) :: serializePlayers toIndex (idx + 1) rest

/-- `Game.serialize(toIndex?)` of game.ts (lines 26-51): without a recipient
every hand is sent in full; for recipient `toIndex` every other player's
hand is replaced by face-down placeholders. -/
def Game.serialize (g : Game) (toIndex : Option Nat) : SerializedGame :=
  match toIndex with
  | none =>
    { bottom := g.bottom, currentIndex := g.currentIndex, lastPlay := g.lastPlay,
      phase := g.phase, players := g.players.map (fun p => p.serialize false),
      bet := g.bet, landlordIndex := g.landlordIndex }
  | some i =>
    { bottom := g.bottom, currentIndex := g.currentIndex, lastPlay := g.lastPlay,
      phase := g.phase, players := serializePlayers i 0 g.players,
      bet := g.bet, landlordIndex := g.landlordIndex }

/-- Indexing into the serialized player list. -/
theorem serializePlayers_get? (toIndex : Nat) (l : List Player) :
    ∀ (start j : Nat),
      (serializePlayers toIndex start l).get? j =
        (l.get? j).map (fun p => p.serialize ((start + j) != toIndex)) := by
  induction l with
  | nil => intro start j; simp [serializePlayers]
  | cons p rest ih =>
    intro start j
    cases j with
    | zero => simp [serializePlayers]
    | succ j =>
      simp only [serializePlayers, List.get?_cons_succ]
      rw [ih (start + 1) j]
      have harith : start + 1 + j = start + (j + 1) := by omega
      rw [harith]

end NetView

namespace NetView

/-- Hiding preserves every field except the hand, which only keeps its
length; with matching lengths the hidden serializations agree. -/
theorem serialize_congr (p q : Player) (hid : p.id = q.id) (hname : p.name = q.name)
    (hstatus : p.status = q.status) (hscore : p.score = q.score)
    (hlen : p.hand.length = q.hand.length) (b : Bool) (hb : b = false → p.hand = q.hand) :
    p.serialize b = q.serialize b := by
  cases b with
  | false => simp [Player.serialize, hid, hname, hstatus, hscore, hb rfl]
  | true => simp [Player.serialize, hid, hname, hstatus, hscore, hlen]

/-- The serialized player lists agree when the underlying players agree on
everything a hidden serialization keeps, and on the hand itself at the
recipient's seat. -/
theorem serializePlayers_congr (toIndex : Nat) :
    ∀ (l1 l2 : List Player) (start : Nat),
      l1.length = l2.length →
      (∀ j p q, l1.get? j = some p → l2.get? j = some q →
         p.id = q.id ∧ p.name = q.name ∧ p.status = q.status ∧ p.score = q.score ∧
         p.hand.length = q.hand.length ∧ (start + j = toIndex → p.hand = q.hand)) →
      serializePlayers toIndex start l1 = serializePlayers toIndex start l2 := by
  intro l1
  induction l1 with
  | nil =>
    intro l2 start hlen _
    cases l2 with
    | nil => rfl
    | cons q t => simp at hlen
  | cons p t1 ih =>
    intro l2 start hlen hall
    cases l2 with
    | nil => simp at hlen
    | cons q t2 =>
      have hhead := hall 0 p q rfl rfl
      have hhand : (p.hand.length = q.hand.length) := hhead.2.2.2.2.1
      have hteq : serializePlayers toIndex (start + 1) t1 =
          serializePlayers toIndex (start + 1) t2 := by
        apply ih t2 (start + 1) (by simpa using hlen)
        intro j a b ha hb
        have := hall (j + 1) a b (by simpa using ha) (by simpa using hb)
        refine ⟨this.1, this.2.1, this.2.2.1, this.2.2.2.1, this.2.2.2.2.1, ?_⟩
        intro hidx
        exact this.2.2.2.2.2 (by omega)
      have hheadeq : p.serialize (start != toIndex) = q.serialize (start != toIndex) := by
        apply serialize_congr p q hhead.1 hhead.2.1 hhead.2.2.1 hhead.2.2.2.1 hhand
        intro hb
        have hst : start = toIndex := by
          simpa using bne_eq_false_iff_eq.mp hb
        exact hhead.2.2.2.2.2 (by omega)
      simp only [serializePlayers, hheadeq, hteq]

/-- C8: in the view serialized for recipient seat `i`, seat `i`'s hand is
sent verbatim while every other seat's hand is a same-length run of opaque
`Flipped` placeholders; consequently two states that differ only in the card
contents (not sizes) of hands other than seat `i`'s serialize identically
for recipient `i` — the view reveals nothing about other hands beyond their
lengths. -/
theorem serialize_view_spec :
    (∀ (g : Game) (i j : Nat) (p : Player), g.players.get? j = some p →
       ((g.serialize (some i)).players.get? j).map (fun sp => sp.hand) =
         some (if j = i then p.hand
               else List.replicate p.hand.length Card.Flipped)) ∧
    (∀ (g1 g2 : Game) (i : Nat),
       g1.bottom = g2.bottom → g1.currentIndex = g2.currentIndex →
       g1.lastPlay = g2.lastPlay → g1.phase = g2.phase → g1.bet = g2.bet →
       g1.landlordIndex = g2.landlordIndex →
       g1.players.length = g2.players.length →
       (∀ j p q, g1.players.get? j = some p → g2.players.get? j = some q →
          p.id = q.id ∧ p.name = q.name ∧ p.status = q.status ∧ p.score = q.score ∧
          p.hand.length = q.hand.length ∧ (j = i → p.hand = q.hand)) →
       g1.serialize (some i) = g2.serialize (some i)) := by
  constructor
  · intro g i j p hp
    show ((serializePlayers i 0 g.players).get? j).map (fun sp => sp.hand) = _
    rw [serializePlayers_get? i g.players 0 j, hp]
    by_cases hji : j = i
    · simp [hji, Player.serialize]
    · have hne : ((0 + j) != i) = true := by
        simp only [Nat.zero_add]
        simpa using hji
      simp [hne, Player.serialize, hji]
  · intro g1 g2 i hb hc hl hp hbet hli hlen hall
    show SerializedGame.mk _ _ _ _ _ _ _ = SerializedGame.mk _ _ _ _ _ _ _
    rw [hb, hc, hl, hp, hbet, hli]
    have hpl : serializePlayers i 0 g1.players = serializePlayers i 0 g2.players := by
      apply serializePlayers_congr i g1.players g2.players 0 hlen
      intro j p q hp1 hq1
      have := hall j p q hp1 hq1
      exact ⟨this.1, this.2.1, this.2.2.1, this.2.2.2.1, this.2.2.2.2.1,
        fun hj => this.2.2.2.2.2 (by omega)⟩
    rw [hpl]

end NetView

/-- Witness for C8: a concrete two-player state — recipient seat 0 sees only
a placeholder for seat 1's hand, and changing seat 1's card (same hand size)
produces the identical serialized view for seat 0. -/
theorem serialize_view_spec_witness :
    letI pA : NetView.Player := { id := "a", name := "A",
                                  status := NetView.PlayerStatus.READY, score := 0,
                                  hand := [NetView.Card.Playing Suit.h 5] }
    letI p1 : NetView.Player := { id := "b", name := "B",
                                  status := NetView.PlayerStatus.READY, score := 0,
                                  hand := [NetView.Card.Playing Suit.d 3] }
    letI p2 : NetView.Player := { id := "b", name := "B",
                                  status := NetView.PlayerStatus.READY, score := 0,
                                  hand := [NetView.Card.Playing Suit.c 9] }
    letI g1 : NetView.Game := { bottom := [], players := [pA, p1], currentIndex := 0,
                                bet := 0, landlordIndex := none, lastPlay := none,
                                phase := GamePhase.PLAYING }
    letI g2 : NetView.Game := { bottom := [], players := [pA, p2], currentIndex := 0,
                                bet := 0, landlordIndex := none, lastPlay := none,
                                phase := GamePhase.PLAYING }
    ((g1.serialize (some 0)).players.get? 1).map (fun sp => sp.hand) =
      some (List.replicate 1 NetView.Card.Flipped) ∧
    g1.serialize (some 0) = g2.serialize (some 0) := by
  refine ⟨by decide, ?_⟩
  apply NetView.serialize_view_spec.2 _ _ 0 rfl rfl rfl rfl rfl rfl (by decide)
  intro j p q hp hq
  rcases j with - | j
  · simp only [List.get?_cons_zero, Option.some.injEq] at hp hq
    subst hp
    subst hq
    exact ⟨rfl, rfl, rfl, rfl, rfl, fun _ => rfl⟩
  · rcases j with - | j
    · simp only [List.get?_cons_succ, List.get?_cons_zero, Option.some.injEq] at hp hq
      subst hp
      subst hq
      exact ⟨rfl, rfl, rfl, rfl, rfl, fun hji => absurd hji (by omega)⟩
    · simp at hp
